import Mathlib

/-!
Verification of the pmxlock locking library (shallow embedding).

The source is a Python module providing: a lock capability base class
(`LockBase`), a shared-store directory lock (`PMXLock`), a local advisory
file lock (`FLock`), a recoverable directory lock (`PMXLockShort`), an
ordered composite (`LocksChain`) and a two-stage `ClusterLock`.

Python exceptions are modelled with `Except PyErr`; a method that can
raise returns `Except PyErr α`.  Mutable state is passed explicitly.
Wall-clock readings are abstracted as rational-valued oracles
(`elapsed : Nat → ℚ` gives the value of `time() - start` at the k-th
reading).
-/

/-- Python exception classes relevant to the source.  `otherErr` stands for
any `OSError` not caught anywhere in the module. -/
inductive PyErr where
  | permission
  | notFound
  | fileExists
  | blockingErr
  | otherErr
deriving DecidableEq

deriving instance DecidableEq for Except

/-- The three overridable acquisition methods of `LockBase`, as a record of
behaviours over an abstract state `σ`.  A result of `none` models
divergence (the blocking poll loops forever); `some (s, r)` gives the
post-state and the returned boolean or the raised exception. -/
structure LockImpl (σ : Type) where
  acquire_nonblocking : σ → Option (σ × Except PyErr Bool)
  acquire_blocking : σ → Option (σ × Except PyErr Bool)
  acquire_timeout : ℚ → σ → Option (σ × Except PyErr Bool)

/-- `LockBase.acquire(blocking=True, timeout=-1)`: the dispatch combinator.
Sets `blocking = False` when `timeout == 0`, then delegates to
`acquire_timeout` (blocking, positive timeout), `acquire_blocking`
(blocking, non-positive timeout) or `acquire_nonblocking`. -/
def LockBase.acquire {σ : Type} (L : LockImpl σ) (blocking : Bool) (timeout : ℚ)
    (s : σ) : Option (σ × Except PyErr Bool) :=
  let blocking := if timeout = 0 then false else blocking
  if blocking then
    if 0 < timeout then L.acquire_timeout timeout s
    else L.acquire_blocking s
  else
    L.acquire_nonblocking s

/-- `LockBase.locked()`: probe by a non-blocking acquire (default timeout -1);
on success immediately release (given as `rel`) and report `false`
(unlocked); on failure report `true` (locked). -/
def LockBase.locked {σ : Type} (L : LockImpl σ) (rel : σ → σ × Except PyErr Unit)
    (s : σ) : Option (σ × Except PyErr Bool) :=
  match LockBase.acquire L false (-1) s with
  | none => none
  | some (s1, Except.error e) => some (s1, Except.error e)
  | some (s1, Except.ok true) =>
      let r := rel s1
      match r.2 with
      | Except.ok () => some (r.1, Except.ok false)
      | Except.error e => some (r.1, Except.error e)
  | some (s1, Except.ok false) => some (s1, Except.ok true)

/-- The polling loop of `LockBase.acquire_blocking`, with explicit fuel
(`none` = still looping when fuel runs out) and an oracle `slp` for the
state change brought by the outside world during each `sleep(1)`. -/
def pollBlocking {σ : Type} (nb : σ → σ × Except PyErr Bool) (slp : Nat → σ → σ) :
    Nat → Nat → σ → Option (σ × Except PyErr Bool)
  | _, 0, _ => none
  | k, fuel + 1, s =>
      match nb s with
      | (s1, Except.ok true) => some (s1, Except.ok true)
      | (s1, Except.ok false) => pollBlocking nb slp (k + 1) fuel (slp k s1)
      | (s1, Except.error e) => some (s1, Except.error e)

/-- The polling loop of `LockBase.acquire_timeout`: like `pollBlocking` but
returns `false` once the elapsed-time oracle exceeds the timeout. -/
def pollTimeout {σ : Type} (nb : σ → σ × Except PyErr Bool) (slp : Nat → σ → σ)
    (elapsed : Nat → ℚ) (timeout : ℚ) :
    Nat → Nat → σ → Option (σ × Except PyErr Bool)
  | _, 0, _ => none
  | k, fuel + 1, s =>
      match nb s with
      | (s1, Except.ok true) => some (s1, Except.ok true)
      | (s1, Except.ok false) =>
          if timeout < elapsed k then some (s1, Except.ok false)
          else pollTimeout nb slp elapsed timeout (k + 1) fuel (slp k s1)
      | (s1, Except.error e) => some (s1, Except.error e)

/-- The k-th value yielded by the generator `LocksChain.timeouts(timeout)`:
a non-positive total timeout is yielded unchanged forever; a positive one
yields `timeout - (time() - start)` clamped below at 0, where `elapsed k`
is the wall-clock reading `time() - start` at the k-th yield. -/
def LocksChain.timeouts (timeout : ℚ) (elapsed : Nat → ℚ) (k : Nat) : ℚ :=
  if timeout ≤ 0 then timeout
  else
    let res := timeout - elapsed k
    if res < 0 then 0 else res

/-- Claim C4: for every lock implementing the capability contract,
`acquire(blocking, timeout)` with `timeout == 0` performs exactly the one
non-blocking attempt regardless of `blocking`; with `blocking` true and
`timeout > 0` it returns the result of `acquire_timeout(timeout)`; with
`blocking` true and `timeout < 0` it returns the result of
`acquire_blocking()`; with `blocking` false it performs exactly the one
non-blocking attempt and returns its result. -/
theorem acquire_dispatch {σ : Type} (L : LockImpl σ) (s : σ) (b : Bool) (t : ℚ) :
    (t = 0 → LockBase.acquire L b t s = L.acquire_nonblocking s)
    ∧ (b = true → 0 < t → LockBase.acquire L b t s = L.acquire_timeout t s)
    ∧ (b = true → t < 0 → LockBase.acquire L b t s = L.acquire_blocking s)
    ∧ (b = false → LockBase.acquire L b t s = L.acquire_nonblocking s) := by
  refine ⟨?_, ?_, ?_, ?_⟩
  · intro ht; subst ht; simp [LockBase.acquire]
  · intro hb ht; subst hb
    have ht0 : t ≠ 0 := ne_of_gt ht
    simp [LockBase.acquire, ht0, ht]
  · intro hb ht; subst hb
    have ht0 : t ≠ 0 := ne_of_lt ht
    have ht1 : ¬ 0 < t := not_lt.mpr (le_of_lt ht)
    simp [LockBase.acquire, ht0, ht1]
  · intro hb; subst hb; simp [LockBase.acquire]

/-- Concrete lock behaviour used to witness the dispatch combinator: the
three methods return distinguishable results. -/
def witImpl : LockImpl Nat :=
  ⟨fun s => some (s + 1, Except.ok false),
   fun s => some (s + 2, Except.ok true),
   fun t s => some (s + 3, Except.ok (t ≤ 10))⟩

/-- Witness for C4 at concrete inputs. -/
theorem acquire_dispatch_witness :
    LockBase.acquire witImpl true 0 5 = witImpl.acquire_nonblocking 5
    ∧ LockBase.acquire witImpl true 2 5 = witImpl.acquire_timeout 2 5
    ∧ LockBase.acquire witImpl true (-1) 5 = witImpl.acquire_blocking 5
    ∧ LockBase.acquire witImpl false 7 5 = witImpl.acquire_nonblocking 5 :=
  ⟨(acquire_dispatch witImpl 5 true 0).1 rfl,
   (acquire_dispatch witImpl 5 true 2).2.1 rfl (by norm_num),
   (acquire_dispatch witImpl 5 true (-1)).2.2.1 rfl (by norm_num),
   (acquire_dispatch witImpl 5 false 7).2.2.2 rfl⟩

/-- Claim C7: the remaining-timeout sequence: a non-positive total timeout
is repeated unchanged at every position (no deadline shrinkage); a
positive total timeout yields `timeout - elapsed` clamped at zero, hence
never a negative value. -/
theorem timeouts_spec (timeout : ℚ) (elapsed : Nat → ℚ) (k : Nat) :
    (timeout ≤ 0 → LocksChain.timeouts timeout elapsed k = timeout)
    ∧ (0 < timeout →
        LocksChain.timeouts timeout elapsed k = max 0 (timeout - elapsed k)
        ∧ 0 ≤ LocksChain.timeouts timeout elapsed k) := by
  constructor
  · intro h; simp [LocksChain.timeouts, h]
  · intro h
    have h0 : ¬ timeout ≤ 0 := not_le.mpr h
    constructor
    · simp only [LocksChain.timeouts, h0, if_false]
      by_cases hc : timeout - elapsed k < 0
      · simp [hc, max_eq_left (le_of_lt hc)]
      · simp [hc, max_eq_right (not_lt.mp hc)]
    · simp only [LocksChain.timeouts, h0, if_false]
      by_cases hc : timeout - elapsed k < 0
      · simp [hc]
      · simp [hc, not_lt.mp hc]

/-- Witness for C7 at concrete inputs (negative and positive totals). -/
theorem timeouts_spec_witness :
    LocksChain.timeouts (-1) (fun _ => 3) 4 = -1
    ∧ LocksChain.timeouts 10 (fun n => n) 3 = max 0 (10 - 3)
    ∧ 0 ≤ LocksChain.timeouts 10 (fun n => n) 3 :=
  ⟨(timeouts_spec (-1) (fun _ => 3) 4).1 (by norm_num),
   ((timeouts_spec 10 (fun n => n) 3).2 (by norm_num)).1,
   ((timeouts_spec 10 (fun n => n) 3).2 (by norm_num)).2⟩

/-- Claim C9 (implicit): once the elapsed time has reached a positive total
timeout, the generated remaining budget is exactly 0, and an `acquire`
call with timeout 0 is forced into the single non-blocking attempt; so a
sub-lock reached after the deadline still gets exactly one non-blocking
attempt. -/
theorem deadline_zero_nonblocking {σ : Type} (timeout : ℚ) (elapsed : Nat → ℚ)
    (k : Nat) (L : LockImpl σ) (bb : Bool) (s : σ)
    (h1 : 0 < timeout) (h2 : timeout ≤ elapsed k) :
    LocksChain.timeouts timeout elapsed k = 0
    ∧ LockBase.acquire L bb 0 s = L.acquire_nonblocking s := by
  constructor
  · have h0 : ¬ timeout ≤ 0 := not_le.mpr h1
    simp only [LocksChain.timeouts, h0, if_false]
    by_cases hc : timeout - elapsed k < 0
    · simp [hc]
    · have : timeout - elapsed k = 0 := le_antisymm (by linarith) (not_lt.mp hc)
      simp [hc, this]
  · simp [LockBase.acquire]

/-- Witness for C9 at concrete inputs. -/
theorem deadline_zero_nonblocking_witness :
    LocksChain.timeouts 5 (fun _ => 9) 2 = 0
    ∧ LockBase.acquire witImpl true 0 4 = witImpl.acquire_nonblocking 4 :=
  deadline_zero_nonblocking 5 (fun _ => 9) 2 witImpl true 4 (by norm_num) (by norm_num)

/-- The shared-store state of one lock entry path, plus the calling
process's permissions on it.  `fault` is an oracle injecting an arbitrary
uncaught OS error into `os.utime` calls (the backing medium refusing the
operation); `none` means the call behaves normally. -/
structure Fs where
  present : Bool
  mtime : ℚ
  canWrite : Bool
  canCreate : Bool
  fault : Option PyErr
deriving DecidableEq

/-- `os.utime(path, (0, t))`: raises `FileNotFoundError` if the entry is
absent, `PermissionError` if the caller cannot write it, otherwise
rewrites the modification time to `t`. -/
def osUtime (fs : Fs) (t : ℚ) : Fs × Except PyErr Unit :=
  match fs.fault with
  | some e => (fs, Except.error e)
  | none =>
      if fs.present = false then (fs, Except.error PyErr.notFound)
      else if fs.canWrite = false then (fs, Except.error PyErr.permission)
      else ({ fs with mtime := t }, Except.ok ())

/-- `os.mkdir(path)`: raises `FileExistsError` if the entry exists,
`PermissionError` if the caller cannot create it, otherwise atomically
creates it (modification time set to the current time `t`). -/
def osMkdir (fs : Fs) (t : ℚ) : Fs × Except PyErr Unit :=
  if fs.present = true then (fs, Except.error PyErr.fileExists)
  else if fs.canCreate = false then (fs, Except.error PyErr.permission)
  else ({ fs with present := true, mtime := t }, Except.ok ())

/-- `os.rmdir(path)`: removes the entry, raising `FileNotFoundError` if it
does not exist. -/
def osRmdir (fs : Fs) : Fs × Except PyErr Unit :=
  if fs.present = true then ({ fs with present := false }, Except.ok ())
  else (fs, Except.error PyErr.notFound)

/-- Filesystem operations issued against the lock path, recorded as a
trace. -/
inductive FsOp where
  | utime (t : ℚ)
  | mkdir
  | rmdir
deriving DecidableEq

/-- State threaded through the directory-lock methods: the trace of issued
operations and the entry state. -/
abbrev PmxSt := List FsOp × Fs

/-- `PMXLock.request_unlock`: best-effort `os.utime(path, (0, 0))`
rewriting the modification time to the epoch origin; `PermissionError`
and `FileNotFoundError` are swallowed, any other error propagates. -/
def PMXLock.request_unlock (s : PmxSt) : PmxSt × Except PyErr Unit :=
  let r := osUtime s.2 0
  match r.2 with
  | Except.ok () => ((s.1 ++ [FsOp.utime 0], r.1), Except.ok ())
  | Except.error PyErr.permission => ((s.1 ++ [FsOp.utime 0], r.1), Except.ok ())
  | Except.error PyErr.notFound => ((s.1 ++ [FsOp.utime 0], r.1), Except.ok ())
  | Except.error e => ((s.1 ++ [FsOp.utime 0], r.1), Except.error e)

/-- `PMXLock.mklock`: attempt `os.mkdir(path)`; `True` on success, `False`
on `FileExistsError` or `PermissionError` (both mean busy), any other
error propagates. -/
def PMXLock.mklock (now : ℚ) (s : PmxSt) : PmxSt × Except PyErr Bool :=
  let r := osMkdir s.2 now
  match r.2 with
  | Except.ok () => ((s.1 ++ [FsOp.mkdir], r.1), Except.ok true)
  | Except.error PyErr.fileExists => ((s.1 ++ [FsOp.mkdir], r.1), Except.ok false)
  | Except.error PyErr.permission => ((s.1 ++ [FsOp.mkdir], r.1), Except.ok false)
  | Except.error e => ((s.1 ++ [FsOp.mkdir], r.1), Except.error e)

/-- `PMXLock.acquire_nonblocking`: the preemption hint first, then the
atomic creation attempt. -/
def PMXLock.acquire_nonblocking (now : ℚ) (s : PmxSt) : PmxSt × Except PyErr Bool :=
  let r := PMXLock.request_unlock s
  match r.2 with
  | Except.ok () => PMXLock.mklock now r.1
  | Except.error e => (r.1, Except.error e)

/-- `PMXLock.release`: `os.rmdir(path)`, failing loudly if absent. -/
def PMXLock.release (s : PmxSt) : PmxSt × Except PyErr Unit :=
  let r := osRmdir s.2
  ((s.1 ++ [FsOp.rmdir], r.1), r.2)

/-- `PMXLock.update`: heartbeat `os.utime(path, (0, time()))`; failures
propagate. -/
def PMXLock.update (now : ℚ) (s : PmxSt) : PmxSt × Except PyErr Unit :=
  let r := osUtime s.2 now
  ((s.1 ++ [FsOp.utime now], r.1), r.2)

/-- The `LockBase` method record of `PMXLock`: `acquire_nonblocking` as
above, the generic polling loops otherwise (`slp` is the outside-world
state change during each sleep, `elapsed` the wall-clock oracle, `fuel`
bounds the modelled loop). -/
def PMXLock.impl (now : ℚ) (slp : Nat → Fs → Fs) (elapsed : Nat → ℚ) (fuel : Nat) :
    LockImpl PmxSt :=
  ⟨fun s => some (PMXLock.acquire_nonblocking now s),
   fun s => pollBlocking (PMXLock.acquire_nonblocking now)
      (fun k p => (p.1, slp k p.2)) 0 fuel s,
   fun t s => pollTimeout (PMXLock.acquire_nonblocking now)
      (fun k p => (p.1, slp k p.2)) elapsed t 0 fuel s⟩

/-- `PMXLockShort.acquire`: try the heartbeat `update()`; on success return
`True` immediately; on `PermissionError` or `FileNotFoundError` fall
through to the inherited full `PMXLock` acquire protocol; any other error
propagates. -/
def PMXLockShort.acquire (now : ℚ) (slp : Nat → Fs → Fs) (elapsed : Nat → ℚ)
    (fuel : Nat) (blocking : Bool) (timeout : ℚ) (s : PmxSt) :
    Option (PmxSt × Except PyErr Bool) :=
  let r := PMXLock.update now s
  match r.2 with
  | Except.ok () => some (r.1, Except.ok true)
  | Except.error PyErr.permission =>
      LockBase.acquire (PMXLock.impl now slp elapsed fuel) blocking timeout r.1
  | Except.error PyErr.notFound =>
      LockBase.acquire (PMXLock.impl now slp elapsed fuel) blocking timeout r.1
  | Except.error e => some (r.1, Except.error e)

/-- Claim C5: the recoverable directory lock: when the heartbeat `update()`
succeeds, `acquire` returns true immediately with no creation attempt and
no preemption hint (the trace is exactly the one heartbeat utime); when
`update()` fails with a missing-entry or permission error, it returns
exactly the result of the full inherited directory-lock acquire protocol
on the post-heartbeat state; any other error from `update()` propagates. -/
theorem pmxlockshort_fast_path (fs : Fs) (now : ℚ) (slp : Nat → Fs → Fs)
    (elapsed : Nat → ℚ) (fuel : Nat) (blocking : Bool) (timeout : ℚ) :
    (fs.fault = none → fs.present = true → fs.canWrite = true →
      PMXLockShort.acquire now slp elapsed fuel blocking timeout ([], fs)
        = some (([FsOp.utime now], { fs with mtime := now }), Except.ok true))
    ∧ ((osUtime fs now).2 = Except.error PyErr.permission ∨
        (osUtime fs now).2 = Except.error PyErr.notFound →
      PMXLockShort.acquire now slp elapsed fuel blocking timeout ([], fs)
        = LockBase.acquire (PMXLock.impl now slp elapsed fuel) blocking timeout
            ([FsOp.utime now], (osUtime fs now).1))
    ∧ (∀ e : PyErr, (osUtime fs now).2 = Except.error e →
        e ≠ PyErr.permission → e ≠ PyErr.notFound →
      PMXLockShort.acquire now slp elapsed fuel blocking timeout ([], fs)
        = some (([FsOp.utime now], (osUtime fs now).1), Except.error e)) := by
  refine ⟨?_, ?_, ?_⟩
  · intro h1 h2 h3
    simp [PMXLockShort.acquire, PMXLock.update, osUtime, h1, h2, h3]
  · intro h
    rcases h with h | h <;>
      simp [PMXLockShort.acquire, PMXLock.update, h]
  · intro e he hne1 hne2
    cases e <;> simp_all [PMXLockShort.acquire, PMXLock.update, he]

/-- Witness for C5: a writable present entry takes the fast path; a missing
entry falls through to the inherited protocol; an injected uncaught fault
propagates. -/
theorem pmxlockshort_fast_path_witness :
    PMXLockShort.acquire 7 (fun _ f => f) (fun _ => 0) 1 true (-1)
        ([], ⟨true, 3, true, true, none⟩)
      = some (([FsOp.utime 7], ⟨true, 7, true, true, none⟩), Except.ok true)
    ∧ PMXLockShort.acquire 7 (fun _ f => f) (fun _ => 0) 1 false 0
        ([], ⟨false, 3, true, true, none⟩)
      = LockBase.acquire (PMXLock.impl 7 (fun _ f => f) (fun _ => 0) 1) false 0
          ([FsOp.utime 7], ⟨false, 3, true, true, none⟩)
    ∧ PMXLockShort.acquire 7 (fun _ f => f) (fun _ => 0) 1 true (-1)
        ([], ⟨true, 3, true, true, some PyErr.otherErr⟩)
      = some (([FsOp.utime 7], ⟨true, 3, true, true, some PyErr.otherErr⟩),
          Except.error PyErr.otherErr) := by
  refine ⟨?_, ?_, ?_⟩
  · exact (pmxlockshort_fast_path ⟨true, 3, true, true, none⟩ 7
      (fun _ f => f) (fun _ => 0) 1 true (-1)).1 rfl rfl rfl
  · have h := (pmxlockshort_fast_path ⟨false, 3, true, true, none⟩ 7
      (fun _ f => f) (fun _ => 0) 1 false 0).2.1 (Or.inr (by decide))
    simpa [osUtime] using h
  · have h := (pmxlockshort_fast_path ⟨true, 3, true, true, some PyErr.otherErr⟩ 7
      (fun _ f => f) (fun _ => 0) 1 true (-1)).2.2 PyErr.otherErr (by decide)
      (by decide) (by decide)
    simpa [osUtime] using h

/-- Claim C6: directory-lock error policy: the preemption hint swallows
permission and not-found failures and does not affect the outcome of the
subsequent creation attempt; the heartbeat `update()` propagates its
missing-entry and permission failures; a creation attempt hitting an
existing entry or a permission failure makes `acquire_nonblocking` return
false (busy) rather than raise. -/
theorem pmxlock_error_policy (fs : Fs) (now : ℚ) (tr : List FsOp)
    (hf : fs.fault = none) :
    (PMXLock.request_unlock (tr, fs)).2 = Except.ok ()
    ∧ (PMXLock.acquire_nonblocking now (tr, fs)).2 = (PMXLock.mklock now (tr, fs)).2
    ∧ (fs.present = false →
        (PMXLock.update now (tr, fs)).2 = Except.error PyErr.notFound)
    ∧ (fs.present = true → fs.canWrite = false →
        (PMXLock.update now (tr, fs)).2 = Except.error PyErr.permission)
    ∧ (fs.present = true →
        (PMXLock.acquire_nonblocking now (tr, fs)).2 = Except.ok false)
    ∧ (fs.present = false → fs.canCreate = false →
        (PMXLock.acquire_nonblocking now (tr, fs)).2 = Except.ok false) := by
  cases hp : fs.present <;> cases hw : fs.canWrite <;> cases hc : fs.canCreate <;>
    simp_all [PMXLock.request_unlock, PMXLock.acquire_nonblocking, PMXLock.mklock,
      PMXLock.update, osUtime, osMkdir]

/-- Witness for C6 at concrete entries: a heartbeat on a missing entry
raises not-found; a creation attempt on a held entry reports busy. -/
theorem pmxlock_error_policy_witness :
    (PMXLock.update 9 ([], ⟨false, 2, true, true, none⟩)).2
      = Except.error PyErr.notFound
    ∧ (PMXLock.acquire_nonblocking 9 ([], ⟨true, 2, true, true, none⟩)).2
      = Except.ok false
    ∧ (PMXLock.request_unlock ([], ⟨false, 2, false, true, none⟩)).2
      = Except.ok () :=
  ⟨(pmxlock_error_policy ⟨false, 2, true, true, none⟩ 9 [] rfl).2.2.1 rfl,
   (pmxlock_error_policy ⟨true, 2, true, true, none⟩ 9 [] rfl).2.2.2.2.1 rfl,
   (pmxlock_error_policy ⟨false, 2, false, true, none⟩ 9 [] rfl).1⟩

/-- Claim C10 (implicit): a non-blocking acquisition attempt on the
directory lock always issues the preemption hint (utime to the epoch
origin) before the creation attempt; hence the `locked()` probe on an
entry held by another process, run with write permission, rewrites the
holder heartbeat timestamp to 0 while reporting locked and leaving the
held state (entry presence) unchanged. -/
theorem probe_erases_heartbeat (fs : Fs) (now : ℚ) (slp : Nat → Fs → Fs)
    (elapsed : Nat → ℚ) (fuel : Nat) (tr : List FsOp)
    (hp : fs.present = true) (hw : fs.canWrite = true) (hf : fs.fault = none) :
    LockBase.locked (PMXLock.impl now slp elapsed fuel) PMXLock.release ([], fs)
      = some (([FsOp.utime 0, FsOp.mkdir], { fs with mtime := 0 }), Except.ok true)
    ∧ (PMXLock.acquire_nonblocking now (tr, fs)).1.1 = tr ++ [FsOp.utime 0, FsOp.mkdir] := by
  constructor
  · simp [LockBase.locked, LockBase.acquire, PMXLock.impl,
      PMXLock.acquire_nonblocking, PMXLock.request_unlock, PMXLock.mklock,
      osUtime, osMkdir, hp, hw, hf]
  · simp [PMXLock.acquire_nonblocking, PMXLock.request_unlock, PMXLock.mklock,
      osUtime, osMkdir, hp, hw, hf]

/-- Witness for C10: probing a held writable entry reports locked but
rewrites its modification time from 5 to 0. -/
theorem probe_erases_heartbeat_witness :
    LockBase.locked (PMXLock.impl 9 (fun _ f => f) (fun _ => 0) 1) PMXLock.release
        ([], ⟨true, 5, true, true, none⟩)
      = some (([FsOp.utime 0, FsOp.mkdir], ⟨true, 0, true, true, none⟩), Except.ok true)
    ∧ (PMXLock.acquire_nonblocking 9 ([], ⟨true, 5, true, true, none⟩)).1.1
      = [FsOp.utime 0, FsOp.mkdir] :=
  (probe_erases_heartbeat ⟨true, 5, true, true, none⟩ 9 (fun _ f => f)
    (fun _ => 0) 1 [] rfl rfl rfl)

/-- The descriptor-tracking attributes of an `FLock` instance: `fd` is the
attribute assigned during `acquire`, `locked_fd` the descriptor recorded
once locking succeeded. -/
structure FLockSt where
  fd : Option Nat
  locked_fd : Option Nat
deriving DecidableEq

/-- `FLock.acquire(blocking, timeout)`: sets `self.fd = None`, opens the
backing file (outcome `openRes`: the new descriptor number, or the raised
error), delegates to the inherited combinator (outcome `superRes`), records
`locked_fd` on success, and in the `except` handler closes `self.fd` when
it is not `None` before re-raising.  `openFds` is the set of descriptors
the process currently holds open; `os.open` prepends the new one,
`os.close` erases it. -/
def FLock.acquire (openRes : Except PyErr Nat) (superRes : Except PyErr Bool)
    (openFds : List Nat) (st : FLockSt) : List Nat × FLockSt × Except PyErr Bool :=
  let st0 : FLockSt := ⟨none, st.locked_fd⟩
  match openRes with
  | Except.error e => (openFds, st0, Except.error e)
  | Except.ok fd =>
      let fds1 := fd :: openFds
      let st1 : FLockSt := ⟨some fd, st.locked_fd⟩
      match superRes with
      | Except.ok true => (fds1, ⟨some fd, some fd⟩, Except.ok true)
      | Except.ok false => (fds1, st1, Except.ok false)
      | Except.error e => (fds1.erase fd, st1, Except.error e)

/-- Counterexample to C2: opening succeeds with descriptor 7 and the
locking step returns false; the call reports the failure (false) yet
descriptor 7 is still open and not recorded in `locked_fd` — the
descriptor is not closed on the returns-false failure path. -/
theorem flock_false_leaves_fd_open_cex :
    FLock.acquire (Except.ok 7) (Except.ok false) [] ⟨none, none⟩
      = ([7], ⟨some 7, none⟩, Except.ok false)
    ∧ 7 ∈ (FLock.acquire (Except.ok 7) (Except.ok false) [] ⟨none, none⟩).1 := by
  constructor
  · rfl
  · decide

/-- Claim C2 as amended: only when a step after the open raises is the
just-opened descriptor closed before the exception propagates (the open
set returns to its prior value); when the locking step returns false the
descriptor stays open, retained in `fd` but not in `locked_fd`; when the
open itself fails nothing is opened or closed. -/
theorem flock_fd_close_policy (fd : Nat) (e : PyErr) (fds : List Nat) (st : FLockSt) :
    FLock.acquire (Except.ok fd) (Except.error e) fds st
      = (fds, ⟨some fd, st.locked_fd⟩, Except.error e)
    ∧ FLock.acquire (Except.ok fd) (Except.ok false) fds st
      = (fd :: fds, ⟨some fd, st.locked_fd⟩, Except.ok false)
    ∧ FLock.acquire (Except.error e) (Except.ok false) fds st
      = (fds, ⟨none, st.locked_fd⟩, Except.error e)
    ∧ FLock.acquire (Except.ok fd) (Except.ok true) fds st
      = (fd :: fds, ⟨some fd, some fd⟩, Except.ok true) := by
  refine ⟨?_, rfl, rfl, rfl⟩
  simp [FLock.acquire, List.erase_cons_head]

/-- One sub-lock of a chain, abstracted by its behaviour on this
acquisition attempt: `acq blocking timeout` is the outcome of its
`acquire(blocking, timeout)` call, `rel` the outcome of its `release()`. -/
structure LockSpec where
  acq : Bool → ℚ → Except PyErr Bool
  rel : Except PyErr Unit

/-- Observable operations the chain performs on its sub-locks, tagged by
the sub-lock position in the chain. -/
inductive Ev where
  | acq (i : Nat) (blocking : Bool) (timeout : ℚ) (res : Except PyErr Bool)
  | rel (i : Nat) (res : Except PyErr Unit)
deriving DecidableEq

/-- Position of the sub-lock an event touches. -/
def Ev.idx : Ev → Nat
  | Ev.acq i _ _ _ => i
  | Ev.rel i _ => i

/-- The loop body of `LocksChain.release_locks`: call `release()` on each
listed sub-lock in order; a raised exception propagates at once, skipping
the rest of the loop. -/
def releaseGo : List (Nat × LockSpec) → List Ev × Except PyErr Unit
  | [] => ([], Except.ok ())
  | p :: rest =>
      match p.2.rel with
      | Except.ok () =>
          let r := releaseGo rest
          (Ev.rel p.1 (Except.ok ()) :: r.1, r.2)
      | Except.error e => ([Ev.rel p.1 (Except.error e)], Except.error e)

/-- `LocksChain.release_locks(locks)`: release the listed sub-locks in
reversed list order. -/
def LocksChain.release_locks (locks : List (Nat × LockSpec)) :
    List Ev × Except PyErr Unit :=
  releaseGo locks.reverse

/-- The loop of `LocksChain.acquire` over the pending sub-locks: `k` is the
position of the next sub-lock (also the index of the next generator
value), `acquired` the already-acquired sub-locks in acquisition order.
On a false result the chain rolls back inside the `try` (a rollback
exception is then caught by the handler, which rolls back again and
propagates it); on a raised exception the handler rolls back and
re-raises (a rollback exception replaces it). -/
def chainGo (b : Bool) (tmo : Nat → ℚ) :
    List LockSpec → Nat → List (Nat × LockSpec) → List Ev × Except PyErr Bool
  | [], _, _ => ([], Except.ok true)
  | L :: rest, k, acquired =>
      match L.acq b (tmo k) with
      | Except.ok true =>
          let r := chainGo b tmo rest (k + 1) (acquired ++ [(k, L)])
          (Ev.acq k b (tmo k) (Except.ok true) :: r.1, r.2)
      | Except.ok false =>
          let r1 := releaseGo acquired.reverse
          match r1.2 with
          | Except.ok () =>
              (Ev.acq k b (tmo k) (Except.ok false) :: r1.1, Except.ok false)
          | Except.error e =>
              let r2 := releaseGo acquired.reverse
              match r2.2 with
              | Except.ok () =>
                  (Ev.acq k b (tmo k) (Except.ok false) :: (r1.1 ++ r2.1),
                   Except.error e)
              | Except.error e2 =>
                  (Ev.acq k b (tmo k) (Except.ok false) :: (r1.1 ++ r2.1),
                   Except.error e2)
      | Except.error e =>
          let r1 := releaseGo acquired.reverse
          match r1.2 with
          | Except.ok () =>
              (Ev.acq k b (tmo k) (Except.error e) :: r1.1, Except.error e)
          | Except.error e2 =>
              (Ev.acq k b (tmo k) (Except.error e) :: r1.1, Except.error e2)

/-- `LocksChain.acquire(blocking, timeout)`: derive the remaining-timeout
sequence from one start instant (`elapsed` oracle), zip it with the
sub-lock list, and run the acquisition loop. -/
def LocksChain.acquire (specs : List LockSpec) (b : Bool) (timeout : ℚ)
    (elapsed : Nat → ℚ) : List Ev × Except PyErr Bool :=
  chainGo b (LocksChain.timeouts timeout elapsed) specs 0 []

/-- Held-state semantics of one sub-lock position: an acquire event that
returned true marks it held, a release event that returned normally marks
it unheld; other events leave it unchanged. -/
def heldStep (i : Nat) (b : Bool) : Ev → Bool
  | Ev.acq k _ _ (Except.ok true) => if k = i then true else b
  | Ev.acq _ _ _ _ => b
  | Ev.rel k (Except.ok ()) => if k = i then false else b
  | Ev.rel _ _ => b

/-- Whether the sub-lock at position `i` is held after the event trace
`evs`, starting unheld. -/
def heldAfter (evs : List Ev) (i : Nat) : Bool :=
  evs.foldl (heldStep i) false

/-- Pairs each sub-lock with its chain position, starting at `k`. -/
def enumFromIdx : Nat → List LockSpec → List (Nat × LockSpec)
  | _, [] => []
  | k, L :: rest => (k, L) :: enumFromIdx (k + 1) rest

/-- A release loop over sub-locks whose `release()` all return normally
emits one release event per sub-lock, in list order, and returns
normally. -/
theorem releaseGo_ok (lst : List (Nat × LockSpec))
    (h : ∀ p ∈ lst, p.2.rel = Except.ok ()) :
    releaseGo lst = (lst.map (fun p => Ev.rel p.1 (Except.ok ())), Except.ok ()) := by
  induction lst with
  | nil => rfl
  | cons p rest ih =>
      have hp := h p (List.mem_cons_self p rest)
      have hr : ∀ q ∈ rest, q.2.rel = Except.ok () :=
        fun q hq => h q (List.mem_cons_of_mem p hq)
      simp [releaseGo, hp, ih hr]

/-- An acquire event whose result is not a successful true does not change
the held state. -/
theorem heldStep_acq_ne (i k : Nat) (bb : Bool) (t : ℚ) (fr : Except PyErr Bool)
    (b : Bool) (hfr : fr ≠ Except.ok true) :
    heldStep i b (Ev.acq k bb t fr) = b := by
  cases fr with
  | ok v =>
      cases v with
      | true => exact absurd rfl hfr
      | false => rfl
  | error e => rfl

/-- A release event can never turn an unheld lock into a held one. -/
theorem heldStep_rel_false (i k : Nat) (r : Except PyErr Unit) :
    heldStep i false (Ev.rel k r) = false := by
  cases r with
  | ok u => cases u; simp [heldStep]
  | error e => rfl

/-- After a trace of successful acquires over a set of positions, one
failed acquire, and normal releases of the same positions in reverse
order, every position is unheld. -/
theorem heldAfter_rollback (bb : Bool) (tmo : Nat → ℚ) (m : Nat) (t : ℚ)
    (fr : Except PyErr Bool) (hfr : fr ≠ Except.ok true) :
    ∀ (ps : List (Nat × LockSpec)) (i : Nat),
    heldAfter (ps.map (fun p => Ev.acq p.1 bb (tmo p.1) (Except.ok true))
      ++ Ev.acq m bb t fr :: ps.reverse.map (fun p => Ev.rel p.1 (Except.ok ()))) i
      = false := by
  intro ps
  induction ps with
  | nil =>
      intro i
      simp [heldAfter, heldStep_acq_ne i m bb t fr false hfr]
  | cons p rest ih =>
      intro i
      have hshape :
          ((p :: rest).map (fun q => Ev.acq q.1 bb (tmo q.1) (Except.ok true))
            ++ Ev.acq m bb t fr
              :: (p :: rest).reverse.map (fun q => Ev.rel q.1 (Except.ok ())))
          = Ev.acq p.1 bb (tmo p.1) (Except.ok true)
            :: ((rest.map (fun q => Ev.acq q.1 bb (tmo q.1) (Except.ok true))
                ++ Ev.acq m bb t fr
                  :: rest.reverse.map (fun q => Ev.rel q.1 (Except.ok ())))
              ++ [Ev.rel p.1 (Except.ok ())]) := by
        simp
      rw [hshape]
      unfold heldAfter
      rw [List.foldl_cons, List.foldl_append]
      simp only [List.foldl_cons, List.foldl_nil]
      by_cases hpi : p.1 = i
      · simp [heldStep, hpi]
      · have h1 : heldStep i false (Ev.acq p.1 bb (tmo p.1) (Except.ok true)) = false := by
          simp [heldStep, hpi]
        have hm := ih i
        unfold heldAfter at hm
        rw [h1, hm]
        exact heldStep_rel_false i p.1 _

/-- Behaviour of the acquisition loop when the sub-lock at offset `j` of
the pending list fails (returns false or raises) after all earlier
pending sub-locks succeeded and all releases return normally: the loop
acquires positions `k .. k+j-1`, records the failing attempt, releases
the accumulated and newly acquired sub-locks in reverse acquisition
order, and propagates the failing outcome unchanged. -/
theorem chainGo_fail (b : Bool) (tmo : Nat → ℚ) (fr : Except PyErr Bool)
    (hfr : fr ≠ Except.ok true) :
    ∀ (pending : List LockSpec) (j : Nat) (k : Nat) (acquired : List (Nat × LockSpec))
      (hj : j < pending.length)
      (hrela : ∀ p ∈ acquired, p.2.rel = Except.ok ())
      (hrelp : ∀ i (hi : i < j), (pending.get ⟨i, hi.trans hj⟩).rel = Except.ok ())
      (hok : ∀ i (hi : i < j),
        (pending.get ⟨i, hi.trans hj⟩).acq b (tmo (k + i)) = Except.ok true)
      (hfail : (pending.get ⟨j, hj⟩).acq b (tmo (k + j)) = fr),
    chainGo b tmo pending k acquired =
      ((enumFromIdx k (pending.take j)).map
          (fun p => Ev.acq p.1 b (tmo p.1) (Except.ok true))
        ++ Ev.acq (k + j) b (tmo (k + j)) fr
          :: (acquired ++ enumFromIdx k (pending.take j)).reverse.map
              (fun p => Ev.rel p.1 (Except.ok ())),
       fr) := by
  intro pending
  induction pending with
  | nil =>
      intro j k acquired hj
      exact absurd hj (by simp)
  | cons L rest ih =>
      intro j k acquired hj hrela hrelp hok hfail
      cases j with
      | zero =>
          have hL : L.acq b (tmo (k + 0)) = fr := hfail
          simp only [Nat.add_zero] at hL ⊢
          have hrg := releaseGo_ok acquired.reverse
            (fun p hp => hrela p (List.mem_reverse.mp hp))
          cases fr with
          | ok v =>
              cases v with
              | true => exact absurd rfl hfr
              | false => simp [chainGo, hL, hrg, enumFromIdx]
          | error e => simp [chainGo, hL, hrg, enumFromIdx]
      | succ jj =>
          have h0 : L.acq b (tmo (k + 0)) = Except.ok true := hok 0 (Nat.succ_pos jj)
          simp only [Nat.add_zero] at h0
          have hj2 : jj < rest.length := Nat.lt_of_succ_lt_succ hj
          have hrela2 : ∀ p ∈ acquired ++ [(k, L)], p.2.rel = Except.ok () := by
            intro p hp
            rcases List.mem_append.mp hp with h | h
            · exact hrela p h
            · have hpk := List.mem_singleton.mp h
              subst hpk
              exact hrelp 0 (Nat.succ_pos jj)
          have hrelp2 : ∀ i (hi : i < jj),
              (rest.get ⟨i, hi.trans hj2⟩).rel = Except.ok () := by
            intro i hi
            have h := hrelp (i + 1) (Nat.succ_lt_succ hi)
            simpa using h
          have hok2 : ∀ i (hi : i < jj),
              (rest.get ⟨i, hi.trans hj2⟩).acq b (tmo (k + 1 + i)) = Except.ok true := by
            intro i hi
            have h := hok (i + 1) (Nat.succ_lt_succ hi)
            have harith : k + (i + 1) = k + 1 + i := by omega
            rw [harith] at h
            simpa using h
          have hfail2 : (rest.get ⟨jj, hj2⟩).acq b (tmo (k + 1 + jj)) = fr := by
            have h := hfail
            have harith : k + (jj + 1) = k + 1 + jj := by omega
            rw [harith] at h
            simpa using h
          have ihr := ih jj (k + 1) (acquired ++ [(k, L)]) hj2 hrela2 hrelp2 hok2 hfail2
          have harith : k + (jj + 1) = k + 1 + jj := by omega
          simp only [chainGo, h0, ihr, List.take_succ_cons, enumFromIdx,
            List.map_cons, harith, List.cons_append, List.append_assoc,
            List.singleton_append, List.nil_append]

/-- Claim C1: for every lock chain and every acquisition attempt whose
sub-lock releases return normally: if the sub-lock at position `j` is the
first whose `acquire` does not return true (it returns false, or raises),
the chain acquires positions `0..j-1`, then releases them in reverse
acquisition order and propagates the failing outcome (returns false, or
re-raises); and afterwards no sub-lock remains held (all-or-nothing). -/
theorem chain_acquire_rollback (specs : List LockSpec) (b : Bool) (timeout : ℚ)
    (elapsed : Nat → ℚ) (j : Nat) (fr : Except PyErr Bool)
    (hj : j < specs.length)
    (hfr : fr ≠ Except.ok true)
    (hrel : ∀ L ∈ specs, L.rel = Except.ok ())
    (hok : ∀ i (hi : i < j),
      (specs.get ⟨i, hi.trans hj⟩).acq b (LocksChain.timeouts timeout elapsed i)
        = Except.ok true)
    (hfail : (specs.get ⟨j, hj⟩).acq b (LocksChain.timeouts timeout elapsed j) = fr) :
    LocksChain.acquire specs b timeout elapsed =
      ((enumFromIdx 0 (specs.take j)).map
          (fun p => Ev.acq p.1 b (LocksChain.timeouts timeout elapsed p.1)
            (Except.ok true))
        ++ Ev.acq j b (LocksChain.timeouts timeout elapsed j) fr
          :: (enumFromIdx 0 (specs.take j)).reverse.map
              (fun p => Ev.rel p.1 (Except.ok ()))
          , fr)
    ∧ ∀ i, heldAfter (LocksChain.acquire specs b timeout elapsed).1 i = false := by
  have hrelp : ∀ i (hi : i < j),
      (specs.get ⟨i, hi.trans hj⟩).rel = Except.ok () :=
    fun i hi => hrel _ (specs.get_mem _ _)
  have hok0 : ∀ i (hi : i < j),
      (specs.get ⟨i, hi.trans hj⟩).acq b
        (LocksChain.timeouts timeout elapsed (0 + i)) = Except.ok true := by
    intro i hi
    rw [Nat.zero_add]
    exact hok i hi
  have hfail0 : (specs.get ⟨j, hj⟩).acq b
      (LocksChain.timeouts timeout elapsed (0 + j)) = fr := by
    rw [Nat.zero_add]
    exact hfail
  have hmain := chainGo_fail b (LocksChain.timeouts timeout elapsed) fr hfr specs
    j 0 [] hj (by simp) hrelp hok0 hfail0
  simp only [Nat.zero_add, List.nil_append] at hmain
  constructor
  · rw [LocksChain.acquire, hmain]
  · intro i
    rw [LocksChain.acquire, hmain]
    exact heldAfter_rollback b (LocksChain.timeouts timeout elapsed) j
      (LocksChain.timeouts timeout elapsed j) fr hfr (enumFromIdx 0 (specs.take j)) i

/-- A two-stage chain whose first sub-lock acquires and whose second
refuses, both releasing normally; used to witness the rollback theorem. -/
def specsW1 : List LockSpec :=
  [⟨fun _ _ => Except.ok true, Except.ok ()⟩,
   ⟨fun _ _ => Except.ok false, Except.ok ()⟩]

/-- Witness for C1: the concrete two-stage chain acquires stage 0, fails at
stage 1, releases stage 0 and returns false; stage 0 ends unheld. -/
theorem chain_acquire_rollback_witness :
    LocksChain.acquire specsW1 false (-1) (fun _ => 0)
      = ([Ev.acq 0 false (-1) (Except.ok true), Ev.acq 1 false (-1) (Except.ok false),
          Ev.rel 0 (Except.ok ())], Except.ok false)
    ∧ heldAfter (LocksChain.acquire specsW1 false (-1) (fun _ => 0)).1 0 = false := by
  have h := chain_acquire_rollback specsW1 false (-1) (fun _ => 0) 1 (Except.ok false)
    (by norm_num [specsW1])
    (by decide)
    (by
      intro L hL
      simp only [specsW1, List.mem_cons, List.not_mem_nil, or_false] at hL
      rcases hL with rfl | rfl <;> rfl)
    (by
      intro i hi
      have hi0 : i = 0 := by omega
      subst hi0
      rfl)
    rfl
  exact ⟨h.1.trans (by decide), h.2 0⟩

/-- A three-stage chain: stages 0 and 1 acquire, stage 1 raises on release,
stage 2 raises on acquire. -/
def specsC3 : List LockSpec :=
  [⟨fun _ _ => Except.ok true, Except.ok ()⟩,
   ⟨fun _ _ => Except.ok true, Except.error PyErr.otherErr⟩,
   ⟨fun _ _ => Except.error PyErr.permission, Except.ok ()⟩]

/-- Counterexample to C3: stage 2 raises after stages 0 and 1 were
acquired; during rollback the release of stage 1 raises and the loop
stops — the trace contains no release of stage 0, which remains held
while the rollback failure propagates. -/
theorem rollback_skips_after_raise_cex :
    LocksChain.acquire specsC3 true (-1) (fun _ => 0)
      = ([Ev.acq 0 true (-1) (Except.ok true), Ev.acq 1 true (-1) (Except.ok true),
          Ev.acq 2 true (-1) (Except.error PyErr.permission),
          Ev.rel 1 (Except.error PyErr.otherErr)],
         Except.error PyErr.otherErr)
    ∧ heldAfter (LocksChain.acquire specsC3 true (-1) (fun _ => 0)).1 0 = true := by
  constructor <;> decide

/-- A release loop over a list whose prefix releases normally and whose
next entry raises emits the prefix releases and the failing one, then
stops. -/
theorem releaseGo_stop (i : Nat) (L : LockSpec) (e : PyErr)
    (hL : L.rel = Except.error e) :
    ∀ (good rest : List (Nat × LockSpec)),
      (∀ p ∈ good, p.2.rel = Except.ok ()) →
      releaseGo (good ++ (i, L) :: rest)
        = (good.map (fun p => Ev.rel p.1 (Except.ok ()))
            ++ [Ev.rel i (Except.error e)],
           Except.error e) := by
  intro good
  induction good with
  | nil =>
      intro rest _
      simp [releaseGo, hL]
  | cons q qs ih =>
      intro rest hg
      have hq := hg q (List.mem_cons_self q qs)
      have hqs : ∀ p ∈ qs, p.2.rel = Except.ok () :=
        fun p hp => hg p (List.mem_cons_of_mem q hp)
      simp [releaseGo, hq, ih rest hqs]

/-- Claim C3 as amended: during rollback the already-acquired stages are
released in reverse acquisition order only up to the first release that
raises; that exception propagates at once and the releases of the
remaining (earlier-acquired) stages are skipped. -/
theorem release_locks_stops_at_error (l1 l2 : List (Nat × LockSpec)) (i : Nat)
    (L : LockSpec) (e : PyErr)
    (h2 : ∀ p ∈ l2, p.2.rel = Except.ok ()) (hL : L.rel = Except.error e) :
    LocksChain.release_locks (l1 ++ (i, L) :: l2)
      = (l2.reverse.map (fun p => Ev.rel p.1 (Except.ok ()))
          ++ [Ev.rel i (Except.error e)],
         Except.error e) := by
  have hrev : (l1 ++ (i, L) :: l2).reverse = l2.reverse ++ (i, L) :: l1.reverse := by
    simp
  rw [LocksChain.release_locks, hrev]
  exact releaseGo_stop i L e hL l2.reverse l1.reverse
    (fun p hp => h2 p (List.mem_reverse.mp hp))

/-- Witness for C3 as amended: releasing three acquired stages where the
middle release raises emits only the releases of stage 2 and the failing
stage 1. -/
theorem release_locks_stops_at_error_witness :
    LocksChain.release_locks
        [(0, ⟨fun _ _ => Except.ok true, Except.ok ()⟩),
         (1, ⟨fun _ _ => Except.ok true, Except.error PyErr.otherErr⟩),
         (2, ⟨fun _ _ => Except.ok true, Except.ok ()⟩)]
      = ([Ev.rel 2 (Except.ok ()), Ev.rel 1 (Except.error PyErr.otherErr)],
         Except.error PyErr.otherErr) := by
  have h := release_locks_stops_at_error
    [(0, ⟨fun _ _ => Except.ok true, Except.ok ()⟩)]
    [(2, ⟨fun _ _ => Except.ok true, Except.ok ()⟩)]
    1 ⟨fun _ _ => Except.ok true, Except.error PyErr.otherErr⟩ PyErr.otherErr
    (by
      intro p hp
      have hp2 := List.mem_singleton.mp hp
      subst hp2
      rfl)
    rfl
  simpa using h

/-- The two sub-locks a `ClusterLock` is built from, tagged with the paths
its constructor derives from the lock name. -/
inductive ClusterSubLock where
  | flockOf (path : String)
  | pmxlockShortOf (path : String)
deriving DecidableEq

/-- `ClusterLock.__init__(name)`: the chain of the local advisory file lock
at `flock_dir / name` followed by the recoverable directory lock at
`pmxlock_dir / name`, in that order. -/
def ClusterLock.locks (name : String) : List ClusterSubLock :=
  [ClusterSubLock.flockOf ("/run/lock/pmxlock/" ++ name),
   ClusterSubLock.pmxlockShortOf ("/etc/pve/priv/lock/" ++ name)]

/-- Claim C8: the cluster lock is the chain of exactly the local advisory
file lock followed by the recoverable shared-store directory lock, and in
any acquisition attempt in which the local sub-lock does not return true,
every operation in the attempt trace touches position 0 only — the
shared-store sub-lock is never touched. -/
theorem cluster_two_stage (name : String) (behav : ClusterSubLock → LockSpec)
    (b : Bool) (timeout : ℚ) (elapsed : Nat → ℚ)
    (hfl : (behav (ClusterSubLock.flockOf ("/run/lock/pmxlock/" ++ name))).acq b
        (LocksChain.timeouts timeout elapsed 0) ≠ Except.ok true) :
    ClusterLock.locks name
      = [ClusterSubLock.flockOf ("/run/lock/pmxlock/" ++ name),
         ClusterSubLock.pmxlockShortOf ("/etc/pve/priv/lock/" ++ name)]
    ∧ ∀ ev ∈ (LocksChain.acquire ((ClusterLock.locks name).map behav)
          b timeout elapsed).1,
        Ev.idx ev = 0 := by
  refine ⟨rfl, ?_⟩
  intro ev hev
  rw [LocksChain.acquire] at hev
  simp only [ClusterLock.locks, List.map_cons, List.map_nil] at hev
  rcases hA : (behav (ClusterSubLock.flockOf ("/run/lock/pmxlock/" ++ name))).acq b
      (LocksChain.timeouts timeout elapsed 0) with e | v
  · simp [chainGo, hA, releaseGo] at hev
    subst hev
    rfl
  · cases v with
    | false =>
        simp [chainGo, hA, releaseGo] at hev
        subst hev
        rfl
    | true => exact absurd hA hfl

/-- Constant sub-lock behaviour used to witness the cluster chain: every
sub-lock refuses without raising. -/
def behavW : ClusterSubLock → LockSpec :=
  fun _ => ⟨fun _ _ => Except.ok false, Except.ok ()⟩

/-- Witness for C8: with the local stage refusing, the only event of the
attempt is at position 0. -/
theorem cluster_two_stage_witness :
    ClusterLock.locks "a"
      = [ClusterSubLock.flockOf "/run/lock/pmxlock/a",
         ClusterSubLock.pmxlockShortOf "/etc/pve/priv/lock/a"]
    ∧ Ev.idx (Ev.acq 0 false (-1) (Except.ok false)) = 0 := by
  have h := cluster_two_stage "a" behavW false (-1) (fun _ => 0) (by decide)
  exact ⟨h.1.trans (by decide),
    h.2 (Ev.acq 0 false (-1) (Except.ok false)) (by decide)⟩
